import Mathlib

/-!
Verification development for the document-verification service.

The embedding models the repository's matching-and-scoring pipeline:
`src/utils/hash.js` (normalizeId, normalizeName, sha256Hex),
`src/services/matchingService.js` (exactLookupById, fuzzyLookupByNameDob),
`src/services/scoringService.js` (computeFinalConfidence, decideStatus),
`src/controllers/verifyPanController.js` (verifyPanHandler, verifyUtilityHandler,
buildReasons) and `src/controllers/verifyGstController.js` (verifyGstHandler,
fuzzyLookupByNameDobForEntity).

Modelling conventions:
* JavaScript strings are Lean `String`s (lists of code points; UTF-16
  surrogate-pair length effects are outside the model).
* JavaScript numbers are modelled as exact rationals (`Rat`); the scores the
  pipeline manipulates are small dyadic/decimal fractions, where float and
  rational arithmetic agree except in knife-edge rounding that the claims do
  not depend on.
* Dates are modelled by their epoch value (`Int`); `new Date` parsing is the
  collaborator's concern and outside the pipeline logic under scrutiny.
* The MongoDB collection is a `List` of records; `findOne` is the first list
  element satisfying the query, `find.limit(n)` is `filter` then `take n`.
-/

attribute [local semireducible] Rat.add Rat.sub Rat.mul Rat.inv Rat.ofScientific

set_option maxRecDepth 16000

namespace DocVer

/-- The JavaScript `\s` / `String.prototype.trim` whitespace class
(ECMA-262 WhiteSpace ∪ LineTerminator). -/
def isJsWhitespace (c : Char) : Bool :=
  c = ' ' || c = '\t' || c = '\n' || c = '\r' ||
  c.toNat = 0x0B || c.toNat = 0x0C || c.toNat = 0xA0 || c.toNat = 0x1680 ||
  (0x2000 ≤ c.toNat && c.toNat ≤ 0x200A) ||
  c.toNat = 0x2028 || c.toNat = 0x2029 || c.toNat = 0x202F ||
  c.toNat = 0x205F || c.toNat = 0x3000 || c.toNat = 0xFEFF

/-- The simple Latin case-mapping table `A`–`Z` to `a`–`z`. -/
def lowerTable : List (Char × Char) :=
  [('A', 'a'), ('B', 'b'), ('C', 'c'), ('D', 'd'), ('E', 'e'), ('F', 'f'),
   ('G', 'g'), ('H', 'h'), ('I', 'i'), ('J', 'j'), ('K', 'k'), ('L', 'l'),
   ('M', 'm'), ('N', 'n'), ('O', 'o'), ('P', 'p'), ('Q', 'q'), ('R', 'r'),
   ('S', 's'), ('T', 't'), ('U', 'u'), ('V', 'v'), ('W', 'w'), ('X', 'x'),
   ('Y', 'y'), ('Z', 'z')]

/-- JavaScript `toLowerCase`, restricted to the simple Latin mapping
(identity outside `A`–`Z`); the repository's identifiers and names are
Latin-script. -/
def jsToLowerChar (c : Char) : Char :=
  (lowerTable.lookup c).getD c

/-- JavaScript `toUpperCase`, restricted to the simple Latin mapping. -/
def jsToUpperChar (c : Char) : Char :=
  if 'a' ≤ c ∧ c ≤ 'z' then Char.ofNat (c.toNat - 32) else c

/-- NFKD decomposition table, modelled on the Latin-1 precomposed letters the
repository's names can contain: each maps to its base letter followed by the
combining diacritical mark.  Code points outside the table are modelled as
NFKD-inert. -/
def nfkdTable : List (Char × List Char) :=
  [('À', ['A', '̀']), ('Á', ['A', '́']), ('Â', ['A', '̂']),
   ('Ã', ['A', '̃']), ('Ä', ['A', '̈']), ('Å', ['A', '̊']),
   ('Ç', ['C', '̧']), ('È', ['E', '̀']), ('É', ['E', '́']),
   ('Ê', ['E', '̂']), ('Ë', ['E', '̈']), ('Ì', ['I', '̀']),
   ('Í', ['I', '́']), ('Î', ['I', '̂']), ('Ï', ['I', '̈']),
   ('Ñ', ['N', '̃']), ('Ò', ['O', '̀']), ('Ó', ['O', '́']),
   ('Ô', ['O', '̂']), ('Õ', ['O', '̃']), ('Ö', ['O', '̈']),
   ('Ù', ['U', '̀']), ('Ú', ['U', '́']), ('Û', ['U', '̂']),
   ('Ü', ['U', '̈']), ('Ý', ['Y', '́']),
   ('à', ['a', '̀']), ('á', ['a', '́']), ('â', ['a', '̂']),
   ('ã', ['a', '̃']), ('ä', ['a', '̈']), ('å', ['a', '̊']),
   ('ç', ['c', '̧']), ('è', ['e', '̀']), ('é', ['e', '́']),
   ('ê', ['e', '̂']), ('ë', ['e', '̈']), ('ì', ['i', '̀']),
   ('í', ['i', '́']), ('î', ['i', '̂']), ('ï', ['i', '̈']),
   ('ñ', ['n', '̃']), ('ò', ['o', '̀']), ('ó', ['o', '́']),
   ('ô', ['o', '̂']), ('õ', ['o', '̃']), ('ö', ['o', '̈']),
   ('ù', ['u', '̀']), ('ú', ['u', '́']), ('û', ['u', '̂']),
   ('ü', ['u', '̈']), ('ý', ['y', '́']), ('ÿ', ['y', '̈'])]

/-- Embeds `String.prototype.normalize('NFKD')` on one code point, via the table. -/
def nfkdChar (c : Char) : List Char :=
  match nfkdTable.lookup c with
  | some l => l
  | none => [c]

/-- The `\p{Diacritic}` character class, modelled as the Combining
Diacritical Marks block (U+0300–U+036F), which covers every mark the
table produces. -/
def isDiacritic (c : Char) : Bool :=
  0x300 ≤ c.toNat && c.toNat ≤ 0x36F

/-- Helper for `collapseWs`; the flag records whether the previous character
was whitespace (so the current run has already emitted its space). -/
def collapseWsAux : Bool → List Char → List Char
  | _, [] => []
  | prevWs, c :: rest =>
    if isJsWhitespace c then
      if prevWs then collapseWsAux true rest
      else ' ' :: collapseWsAux true rest
    else c :: collapseWsAux false rest

/-- Embeds `replace(/\s+/g, ' ')`: every maximal whitespace run becomes one space. -/
def collapseWs (l : List Char) : List Char :=
  collapseWsAux false l

/-- Embeds `String.prototype.trim()`. -/
def jsTrim (l : List Char) : List Char :=
  ((l.dropWhile isJsWhitespace).reverse.dropWhile isJsWhitespace).reverse

/-- Embeds `normalizeId` from `src/utils/hash.js`:
`id.toString().replace(/\s+/g, '').toUpperCase()`; the empty/missing input
short-circuits to `''`. -/
def normalizeId (id : String) : String :=
  if id = "" then ""
  else ⟨(id.data.filter (fun c => !isJsWhitespace c)).map jsToUpperChar⟩

/-- The character-list pipeline of `normalizeName`: NFKD fold, diacritic
removal, trim, whitespace collapse, lowercase. -/
def normCore (l : List Char) : List Char :=
  (collapseWs (jsTrim ((l.flatMap nfkdChar).filter
      (fun c => !isDiacritic c)))).map jsToLowerChar

/-- Embeds `normalizeName` from `src/utils/hash.js`:
`name.toString().normalize('NFKD').replace(/\p{Diacritic}/gu, '').trim()
.replace(/\s+/g, ' ').toLowerCase()`; empty/missing input yields `''`. -/
def normalizeName (name : String) : String :=
  if name = "" then "" else ⟨normCore name.data⟩

/-- Characters that are inert under the modelled NFKD fold and are not
diacritics: every character the normalizer emits is of this kind. -/
def inertChar (c : Char) : Bool :=
  (nfkdTable.lookup c).isNone && !isDiacritic c

/-- Holds when a list does not start with whitespace. -/
def noLeadWs (l : List Char) : Bool :=
  match l.head? with
  | none => true
  | some c => !isJsWhitespace c

/-- Holds when a list does not end with whitespace. -/
def noTrailWs (l : List Char) : Bool :=
  match l.getLast? with
  | none => true
  | some c => !isJsWhitespace c

/-! ### SHA-256 (`sha256Hex` from `src/utils/hash.js`)

`crypto.createHash('sha256').update(String(input)).digest('hex')`: the UTF-8
bytes of the string are hashed with FIPS 180-4 SHA-256 and the digest is
rendered as 64 lowercase hex characters.  Words are `Nat`s reduced mod 2^32.
-/

/-- Addition mod 2^32. -/
def add32 (a b : Nat) : Nat := (a + b) % 4294967296

/-- Right rotation of a 32-bit word. -/
def rotr32 (n x : Nat) : Nat :=
  (x >>> n) + (x % (2 ^ n)) * 2 ^ (32 - n)

/-- Bitwise complement of a 32-bit word. -/
def not32 (x : Nat) : Nat := 4294967295 - x

def sha256Ch (x y z : Nat) : Nat := (x &&& y) ^^^ (not32 x &&& z)

def sha256Maj (x y z : Nat) : Nat := (x &&& y) ^^^ (x &&& z) ^^^ (y &&& z)

def bigSigma0 (x : Nat) : Nat := rotr32 2 x ^^^ rotr32 13 x ^^^ rotr32 22 x

def bigSigma1 (x : Nat) : Nat := rotr32 6 x ^^^ rotr32 11 x ^^^ rotr32 25 x

def smallSigma0 (x : Nat) : Nat := rotr32 7 x ^^^ rotr32 18 x ^^^ (x >>> 3)

def smallSigma1 (x : Nat) : Nat := rotr32 17 x ^^^ rotr32 19 x ^^^ (x >>> 10)

/-- The 64 SHA-256 round constants. -/
def sha256K : List Nat :=
  [1116352408, 1899447441, 3049323471, 3921009573, 961987163,
   1508970993, 2453635748, 2870763221, 3624381080, 310598401,
   607225278, 1426881987, 1925078388, 2162078206, 2614888103,
   3248222580, 3835390401, 4022224774, 264347078, 604807628,
   770255983, 1249150122, 1555081692, 1996064986, 2554220882,
   2821834349, 2952996808, 3210313671, 3336571891, 3584528711,
   113926993, 338241895, 666307205, 773529912, 1294757372,
   1396182291, 1695183700, 1986661051, 2177026350, 2456956037,
   2730485921, 2820302411, 3259730800, 3345764771, 3516065817,
   3600352804, 4094571909, 275423344, 430227734, 506948616,
   659060556, 883997877, 958139571, 1322822218, 1537002063,
   1747873779, 1955562222, 2024104815, 2227730452, 2361852424,
   2428436474, 2756734187, 3204031479, 3329325298]

/-- UTF-8 encoding of one code point. -/
def utf8Char (c : Char) : List Nat :=
  let n := c.toNat
  if n < 0x80 then [n]
  else if n < 0x800 then
    [0xC0 + (n >>> 6), 0x80 + (n % 64)]
  else if n < 0x10000 then
    [0xE0 + (n >>> 12), 0x80 + ((n >>> 6) % 64), 0x80 + (n % 64)]
  else
    [0xF0 + (n >>> 18), 0x80 + ((n >>> 12) % 64), 0x80 + ((n >>> 6) % 64),
     0x80 + (n % 64)]

/-- UTF-8 bytes of a string. -/
def utf8Bytes (s : String) : List Nat :=
  s.data.flatMap utf8Char

/-- Big-endian 8-byte rendering of the bit length. -/
def be64 (n : Nat) : List Nat :=
  [(n >>> 56) % 256, (n >>> 48) % 256, (n >>> 40) % 256, (n >>> 32) % 256,
   (n >>> 24) % 256, (n >>> 16) % 256, (n >>> 8) % 256, n % 256]

/-- SHA-256 message padding: append `0x80`, zero bytes to 56 mod 64, then the
64-bit big-endian bit length. -/
def sha256Pad (msg : List Nat) : List Nat :=
  let len := msg.length
  msg ++ 0x80 :: List.replicate ((119 - len % 64) % 64) 0 ++ be64 (len * 8)

/-- Helper for `toBlocks`: the fuel bounds the number of blocks and makes the
recursion structural. -/
def toBlocksAux : Nat → List Nat → List (List Nat)
  | 0, _ => []
  | _, [] => []
  | fuel + 1, b0 :: rest =>
    let block := (b0 :: rest).take 64
    let words := (List.range 16).map (fun i =>
      block.getD (4 * i) 0 * 16777216 + block.getD (4 * i + 1) 0 * 65536 +
      block.getD (4 * i + 2) 0 * 256 + block.getD (4 * i + 3) 0)
    words :: toBlocksAux fuel (rest.drop 63)

/-- Split the padded byte stream into 16-word big-endian blocks. -/
def toBlocks (l : List Nat) : List (List Nat) :=
  toBlocksAux l.length l

/-- Message-schedule extension: grow the 16 block words to 64. -/
def sha256Schedule (w : List Nat) (rounds : Nat) : List Nat :=
  match rounds with
  | 0 => w
  | r + 1 =>
    let i := w.length
    sha256Schedule
      (w ++ [add32 (add32 (smallSigma1 (w.getD (i - 2) 0)) (w.getD (i - 7) 0))
               (add32 (smallSigma0 (w.getD (i - 15) 0)) (w.getD (i - 16) 0))])
      r

/-- One compression round. -/
def sha256Round (st : List Nat) (kw : Nat × Nat) : List Nat :=
  match st with
  | [a, b, c, d, e, f, g, h] =>
    let t1 := add32 (add32 (add32 h (bigSigma1 e))
                (add32 (sha256Ch e f g) kw.1)) kw.2
    let t2 := add32 (bigSigma0 a) (sha256Maj a b c)
    [add32 t1 t2, a, b, c, add32 d t1, e, f, g]
  | other => other

/-- Compress one block into the running hash state. -/
def sha256Block (h : List Nat) (block : List Nat) : List Nat :=
  let w := sha256Schedule block 48
  let st := (sha256K.zip w).foldl sha256Round h
  (h.zip st).map (fun p => add32 p.1 p.2)

/-- Initial hash state. -/
def sha256H0 : List Nat :=
  [1779033703, 3144134277, 1013904242, 2773480762,
   1359893119, 2600822924, 528734635, 1541459225]

/-- Lowercase hex digit. -/
def hexDigit (n : Nat) : Char :=
  if n < 10 then Char.ofNat (48 + n) else Char.ofNat (87 + n)

/-- Eight-hex-digit rendering of a 32-bit word. -/
def hex32 (n : Nat) : List Char :=
  [hexDigit ((n >>> 28) % 16), hexDigit ((n >>> 24) % 16),
   hexDigit ((n >>> 20) % 16), hexDigit ((n >>> 16) % 16),
   hexDigit ((n >>> 12) % 16), hexDigit ((n >>> 8) % 16),
   hexDigit ((n >>> 4) % 16), hexDigit (n % 16)]

/-- Embeds `sha256Hex` from `src/utils/hash.js`. -/
def sha256Hex (input : String) : String :=
  let digest := (toBlocks (sha256Pad (utf8Bytes input))).foldl sha256Block sha256H0
  ⟨digest.flatMap hex32⟩

/-! ### Levenshtein distance (`fast-levenshtein`'s `levenshtein.get`)

The npm package computes the standard Levenshtein edit distance.  The fuel
argument makes the textbook recursion structural; `a.length + b.length` fuel
always suffices (each step consumes one unit of fuel and at least one list
element, so the zero-fuel branch is unreachable). -/

def levFuel : Nat → List Char → List Char → Nat
  | _, [], ys => ys.length
  | _, x :: xs, [] => (x :: xs).length
  | 0, _, _ => 0
  | fuel + 1, x :: xs, y :: ys =>
    if x = y then levFuel fuel xs ys
    else 1 + min (levFuel fuel xs (y :: ys))
              (min (levFuel fuel (x :: xs) ys) (levFuel fuel xs ys))

/-- Embeds `levenshtein.get(a, b)`. -/
def lev (a b : String) : Nat :=
  levFuel (a.data.length + b.data.length) a.data b.data

/-! ### Data model

`AuthoritativeRecord` (`src/models/AuthoritativeRecord.js`): the fields the
matching logic reads.  `_id` stands for the Mongo object id.  Optional
document fields are `Option`s; a missing field never satisfies an equality or
regex query. -/

structure AuthRecord where
  _id : String
  doc_type : String
  id_hash : String
  id_masked : Option String
  canonical_name : String
  dob : Option Int
  address : Option String
  raw_consumer_name : Option String
  deriving Repr, DecidableEq

/-- Embeds `findOne({doc_type, id_hash})`: first record in collection order matching
both keys. -/
def findOneByHash (store : List AuthRecord) (docType idHash : String) :
    Option AuthRecord :=
  (store.filter (fun r => r.doc_type = docType && r.id_hash = idHash)).head?

/-- Embeds `findOne({doc_type, id_masked})`. -/
def findOneByMasked (store : List AuthRecord) (docType masked : String) :
    Option AuthRecord :=
  (store.filter (fun r => r.doc_type = docType && r.id_masked = some masked)).head?

/-- JavaScript truthiness of an optional string field (`undefined`, `null`
and `''` are falsy). -/
def truthy : Option String → Bool
  | none => false
  | some s => s ≠ ""

/-! ### Matching service (`src/services/matchingService.js`) -/

/-- JS `Array.prototype.sort` is stable, so
`scored.sort((a,b) => b.score - a.score)[0]` is the first element attaining
the maximal score; a strict-improvement fold computes exactly that. -/
def bestByScore (l : List (AuthRecord × Rat)) : Option (AuthRecord × Rat) :=
  l.foldl (fun acc x =>
    match acc with
    | none => some x
    | some b => if x.2 > b.2 then some x else some b) none

/-- The candidate similarity of `fuzzyLookupByNameDob` (lines 34–40 of
`matchingService.js`): `1 - dist / max(canonical.length, candName.length, 1)`
between the normalized query name and the stored `canonical_name || ''`. -/
def matchingSim (canonical candName : String) : Rat :=
  let dist := lev canonical candName
  let maxLen := max canonical.data.length (max candName.data.length 1)
  1 - (dist : Rat) / (maxLen : Rat)

/-- The candidate query of the fuzzy lookups:
`find({doc_type, ...(dob ? {dob} : {})}).limit(200)`. -/
def fuzzyCandidates (store : List AuthRecord) (docType : String)
    (dob : Option Int) : List AuthRecord :=
  (store.filter (fun c =>
    c.doc_type = docType &&
      match dob with
      | none => true
      | some d => c.dob = some d)).take 200

/-- Embeds `fuzzyLookupByNameDob(docType, name, dob)` from
`src/services/matchingService.js`: dob-filtered (when supplied) candidates of
the type, capped at 200, no fallback when empty; name similarity via
`matchingSim`; accept the best at `>= 0.65`. -/
def fuzzyLookupByNameDob (store : List AuthRecord) (docType : String)
    (name : Option String) (dob : Option Int) : Option (AuthRecord × Rat) :=
  if !truthy name then none
  else if (fuzzyCandidates store docType dob).isEmpty then none
  else
    match bestByScore ((fuzzyCandidates store docType dob).map
        (fun c => (c, matchingSim (normalizeName (name.getD "")) c.canonical_name))) with
    | some best => if best.2 ≥ 65 / 100 then some best else none
    | none => none

/-! ### Scoring service (`src/services/scoringService.js`)

Weights and thresholds are read from the environment with defaults
`0.5/0.25/0.25` and `0.85/0.6`; the model fixes the defaults. -/

structure Checks where
  db_match_score : Rat
  format_check : Rat
  ocr_confidence : Rat
  deriving Repr, DecidableEq

/-- Embeds `computeFinalConfidence` with the default weights. -/
def computeFinalConfidence (c : Checks) : Rat :=
  c.db_match_score * (5 / 10) + c.format_check * (25 / 100) +
    c.ocr_confidence * (25 / 100)

inductive Status where
  | VERIFIED
  | MANUAL_REVIEW
  | REJECTED
  deriving Repr, DecidableEq

/-- Embeds `decideStatus` with the default thresholds. -/
def decideStatus (confidence : Rat) : Status :=
  if confidence ≥ 85 / 100 then Status.VERIFIED
  else if confidence ≥ 6 / 10 then Status.MANUAL_REVIEW
  else Status.REJECTED

/-! ### Utility-bill handler (`verifyUtilityHandler` in
`src/controllers/verifyPanController.js`) -/

/-- Embeds `toLowerCase()` on a whole string. -/
def jsToLowerStr (s : String) : String := ⟨s.data.map jsToLowerChar⟩

/-- Substring containment on code-point lists. -/
def isSubstr (needle : List Char) : List Char → Bool
  | [] => needle.isEmpty
  | c :: rest => needle.isPrefixOf (c :: rest) || isSubstr needle rest

/-- Mongo `$regex: frag, $options: 'i'` with a plain-text fragment:
case-insensitive substring match. -/
def regexMatchCI (frag field : String) : Bool :=
  isSubstr (jsToLowerStr frag).data (jsToLowerStr field).data

/-- Embeds `split(/\s+/)` word splitting (the handler applies it to a trimmed
string, so no leading empty token arises). -/
def splitWsAux (acc : List Char) : List Char → List (List Char)
  | [] => if acc.isEmpty then [] else [acc.reverse]
  | c :: rest =>
    if isJsWhitespace c then
      if acc.isEmpty then splitWsAux [] rest
      else acc.reverse :: splitWsAux [] rest
    else splitWsAux (c :: acc) rest

/-- Embeds `address.toString().trim().split(/\s+/).slice(0,4).join(' ')`. -/
def addrFragOf (address : String) : String :=
  ⟨List.intercalate [' '] ((splitWsAux [] (jsTrim address.data)).take 4)⟩

/-- The recency check of the utility handler (lines 135–144): every branch of
the `days` comparison assigns 1 (the 0.6 / 0 branches are commented out in
the source). -/
def recentBillScore (days : Int) : Rat :=
  if days ≤ 90 then 1
  else if days ≤ 180 then 1
  else 1

/-- Embeds `compositeFormat = (format_check + recent_bill_score) / 2`. -/
def utilityCompositeFormat (format_check recent : Rat) : Rat :=
  (format_check + recent) / 2

/-- Embeds `c.canonical_name || (c.raw && c.raw.consumer_name) || ''`. -/
def utilityCandName (c : AuthRecord) : String :=
  if c.canonical_name ≠ "" then c.canonical_name
  else match c.raw_consumer_name with
       | some s => s
       | none => ""

/-- The utility name-field similarity: Levenshtein between the normalized
query name and the normalized candidate name, but with the *unnormalized*
candidate name's length in the denominator
(`Math.max(nameCanon.length, (candName||'').length, 1)`). -/
def utilityNameSim (nameCanon candName : String) : Rat :=
  let nameDist := lev nameCanon (normalizeName candName)
  let nameMax := max nameCanon.data.length (max candName.data.length 1)
  1 - (nameDist : Rat) / (nameMax : Rat)

/-- The utility address-field similarity (both sides lowercased; the
lowercase map is length-preserving). -/
def utilityAddrSim (address candAddr : String) : Rat :=
  let addrDist := lev (jsToLowerStr address) candAddr
  let addrMax := max address.data.length (max candAddr.data.length 1)
  1 - (addrDist : Rat) / (addrMax : Rat)

/-- Embeds `combined = 0.65 * addrSim + 0.35 * nameSim` for one candidate. -/
def utilityCombined (nameCanon address : String) (c : AuthRecord) : Rat :=
  let candName := utilityCandName c
  let candAddr := jsToLowerStr (c.address.getD "")
  (65 / 100) * utilityAddrSim address candAddr +
    (35 / 100) * utilityNameSim nameCanon candName

/-- The address-fragment-filtered candidate query
(`find({doc_type:'UTILITY', address: {$regex: addrFrag, $options:'i'}})
.limit(200)`); records without an address never match the regex query. -/
def utilityFilteredCandidates (store : List AuthRecord) (address : String) :
    List AuthRecord :=
  let addrFrag := addrFragOf address
  (store.filter (fun c =>
    c.doc_type = "UTILITY" &&
      match c.address with
      | some a => regexMatchCI addrFrag a
      | none => false)).take 200

/-- Candidate retrieval with the unfiltered fallback:
`if (!candidates || candidates.length === 0) candidates =
find({doc_type:'UTILITY'}).limit(200)`. -/
def utilityCandidates (store : List AuthRecord) (address : String) :
    List AuthRecord :=
  let filtered := utilityFilteredCandidates store address
  if filtered.isEmpty then (store.filter (fun c => c.doc_type = "UTILITY")).take 200
  else filtered

/-- The utility fuzzy fallback (lines 163–193): score every candidate,
take the stable-sort maximum, accept at `>= 0.62`. -/
def utilityFuzzy (store : List AuthRecord) (consumer_name address : String) :
    Option (AuthRecord × Rat) :=
  match bestByScore ((utilityCandidates store address).map (fun c =>
      (c, utilityCombined (normalizeName consumer_name) address c))) with
  | some best => if best.2 ≥ 62 / 100 then some best else none
  | none => none

/-- The checks object of the utility handler. -/
structure UtilityChecks where
  format_check : Rat
  recent_bill_score : Rat
  db_match_score : Rat
  ocr_confidence : Rat
  deriving Repr, DecidableEq

/-- Embeds `buildReasons` of `verifyUtilityController` (lines 240–251).  The numeric
suffix of the fuzzy reason (`toFixed(2)`) is elided as a fixed marker
string. -/
def utilityBuildReasons (checks : UtilityChecks) (matched : Bool) :
    List String :=
  (if checks.format_check = 1 then ["fields_present"] else []) ++
  (if checks.recent_bill_score = 1 then ["recent_bill_<=_90d"]
   else if checks.recent_bill_score = 6 / 10 then ["bill_within_180d"]
   else ["bill_old"]) ++
  (if checks.db_match_score = 1 then ["exact_db_match"]
   else if checks.db_match_score > 0 then ["fuzzy_db_match_score_*"] else []) ++
  (if checks.ocr_confidence ≠ 0 ∧ checks.ocr_confidence < 6 / 10 then
     ["low_ocr_confidence"] else []) ++
  (if matched then [] else ["no_db_match_found"])

/-! ### PAN handler (`verifyPanHandler` in
`src/controllers/verifyPanController.js`) -/

def isDigitCh (c : Char) : Bool := '0' ≤ c && c ≤ '9'

def isUpperCh (c : Char) : Bool := 'A' ≤ c && c ≤ 'Z'

/-- Embeds the regex `/^[A-Z]{5}[0-9]{4}[A-Z]$/`. -/
def panFormatOk (s : String) : Bool :=
  match s.data with
  | [a, b, c, d, e, n1, n2, n3, n4, f] =>
    isUpperCh a && isUpperCh b && isUpperCh c && isUpperCh d && isUpperCh e &&
    isDigitCh n1 && isDigitCh n2 && isDigitCh n3 && isDigitCh n4 && isUpperCh f
  | _ => false

/-- The exact-lookup section of `verifyPanHandler` (lines 25–40): if `pan` is
truthy the digest of the raw identifier is looked up and the caller-supplied
hash is ignored; only when `pan` is falsy is the caller-supplied hash
consulted (`if (pan) {...} else if (client_hash) {...}`). -/
def panExactLookup (store : List AuthRecord) (pan client_hash : Option String) :
    Option (AuthRecord × String) :=
  if truthy pan then
    (findOneByHash store "PAN" (sha256Hex (normalizeId (pan.getD "")))).map
      (fun r => (r, "exact_id_hash"))
  else if truthy client_hash then
    (findOneByHash store "PAN" (client_hash.getD "")).map
      (fun r => (r, "exact_id_hash"))
  else none

/-- Embeds `buildReasons` of `verifyPanController` (lines 91–99). -/
def panBuildReasons (checks : Checks) (matched : Bool) : List String :=
  (if checks.format_check ≠ 0 then ["pan_format_ok"] else []) ++
  (if checks.db_match_score = 1 then ["exact_db_match"]
   else if checks.db_match_score > 0 then ["fuzzy_db_match_score_*"] else []) ++
  (if checks.ocr_confidence ≠ 0 ∧ checks.ocr_confidence < 6 / 10 then
     ["low_ocr_confidence"] else []) ++
  (if matched then [] else ["no_db_match_found"])

/-! ### GST handler (`src/controllers/verifyGstController.js`) -/

/-- Embeds the regex `/^[0-9]{2}[A-Z]{5}[0-9]{4}[A-Z][A-Z0-9]Z[A-Z0-9]$/`. -/
def gstFormatOk (s : String) : Bool :=
  match s.data with
  | [d1, d2, a, b, c, d, e, n1, n2, n3, n4, f, g, z, h] =>
    isDigitCh d1 && isDigitCh d2 &&
    isUpperCh a && isUpperCh b && isUpperCh c && isUpperCh d && isUpperCh e &&
    isDigitCh n1 && isDigitCh n2 && isDigitCh n3 && isDigitCh n4 &&
    isUpperCh f && (isUpperCh g || isDigitCh g) && z = 'Z' &&
    (isUpperCh h || isDigitCh h)
  | _ => false

/-- The exact-lookup section of `verifyGstHandler` (lines 33–48): the
caller-supplied hash takes precedence, and when it is present the raw
identifier's digest is never consulted, even on a miss
(`if (client_hash) {...} else if (gstin) {...}`); the handler has already
normalized `gstin` (line 21). -/
def gstExactLookup (store : List AuthRecord) (gstin client_hash : Option String) :
    Option (AuthRecord × String) :=
  if truthy client_hash then
    (findOneByHash store "GST" (client_hash.getD "")).map
      (fun r => (r, "exact_id_hash"))
  else if truthy (gstin.map normalizeId) then
    (findOneByHash store "GST"
        (sha256Hex (normalizeId ((gstin.map normalizeId).getD "")))).map
      (fun r => (r, "exact_id_hash"))
  else none

/-- The candidate similarity of `fuzzyLookupByNameDobForEntity` (lines
114–119 of `verifyGstController.js`): the candidate name is re-normalized
for the distance while the denominator still uses its raw length. -/
def entitySim (canonical candName : String) : Rat :=
  1 - ((lev canonical (normalizeName candName) : Nat) : Rat) /
    ((max canonical.data.length (max candName.data.length 1) : Nat) : Rat)

/-- Embeds `fuzzyLookupByNameDobForEntity` (`verifyGstController.js` lines 108–125):
like `fuzzyLookupByNameDob` but the candidate name is re-normalized for the
distance while the denominator still uses its raw length; accept at
`>= 0.62`. -/
def fuzzyLookupByNameDobForEntity (store : List AuthRecord) (docType : String)
    (name : Option String) (registration_date : Option Int) :
    Option (AuthRecord × Rat) :=
  if (fuzzyCandidates store docType registration_date).isEmpty then none
  else
    match bestByScore ((fuzzyCandidates store docType registration_date).map
        (fun c => (c, entitySim (normalizeName (name.getD "")) c.canonical_name))) with
    | some best => if best.2 ≥ 62 / 100 then some best else none
    | none => none

/-! ### Pipeline orchestration with infrastructure-failure injection

Each `await`ed store operation can fail (`StoreUnavailable`); the oracle
`fail` says which operation throws.  The handlers' `try/catch` maps any
thrown error to the structured `500 {error: 'internal_server_error'}`
response; `Verification.create` is the only write and is atomic. -/

inductive DbOp where
  | findExact
  | findFuzzy
  | create
  deriving Repr, DecidableEq

/-- The persisted `Verification` document (the fields the pipeline sets). -/
structure Verification where
  verification_id : String
  request_id : String
  doc_type : String
  checks : Checks
  matched_record_id : Option String
  final_confidence : Rat
  status : Status
  reasons : List String
  deriving Repr, DecidableEq

/-- The handler's HTTP response: `200` with the result payload, or the
`500 {error: ...}` produced by the catch-all.  `matched` carries
`(record_id, match_type)` of the matched-record summary.  (`toFixed(4)`
response rounding is elided.) -/
inductive HttpResp where
  | ok (verification_id : String) (status : Status) (final_confidence : Rat)
       (matched : Option (String × String)) (reasons : List String)
  | serverError (error : String)
  deriving Repr, DecidableEq

def HttpResp.isOk : HttpResp → Bool
  | HttpResp.ok _ _ _ _ _ => true
  | HttpResp.serverError _ => false

def HttpResp.statusOf : HttpResp → Option Status
  | HttpResp.ok _ st _ _ _ => some st
  | HttpResp.serverError _ => none

/-- The validated input of `verifyPanHandler`. -/
structure PanInput where
  request_id : String
  pan : Option String
  id_hash : Option String
  name : Option String
  dob : Option Int
  ocr_confidence : Option Rat
  deriving Repr, DecidableEq

/-- The body of `verifyPanHandler` (lines 13–89) up to and including the
`Verification.create`: format check, exact lookup, fuzzy fallback, scoring,
persist, response assembly.  A failed store operation throws. -/
def panPipeline (store : List AuthRecord) (inp : PanInput)
    (fail : DbOp → Bool) (vid : String) : Except Unit (Verification × HttpResp) :=
  let ocr : Rat := inp.ocr_confidence.getD 0
  let format : Rat :=
    if truthy inp.pan && panFormatOk (inp.pan.getD "") then 1 else 0
  let exactStep : Except Unit (Option (AuthRecord × String)) :=
    if truthy inp.pan || truthy inp.id_hash then
      if fail DbOp.findExact then Except.error ()
      else Except.ok (panExactLookup store inp.pan inp.id_hash)
    else Except.ok none
  match exactStep with
  | Except.error e => Except.error e
  | Except.ok exact =>
    let fuzzyStep : Except Unit (Option (AuthRecord × Rat)) :=
      if exact.isNone && truthy inp.name then
        if fail DbOp.findFuzzy then Except.error ()
        else Except.ok (fuzzyLookupByNameDob store "PAN" inp.name inp.dob)
      else Except.ok none
    match fuzzyStep with
    | Except.error e => Except.error e
    | Except.ok fuzzy =>
      let db : Rat :=
        match exact, fuzzy with
        | some _, _ => 1
        | none, some (_, sc) => sc
        | none, none => 0
      let checks : Checks := ⟨db, format, ocr⟩
      let conf := computeFinalConfidence checks
      let st := decideStatus conf
      let matchedId : Option String :=
        match exact, fuzzy with
        | some (r, _), _ => some r._id
        | none, some (r, _) => some r._id
        | none, none => none
      let matchedType : Option String :=
        match exact, fuzzy with
        | some (_, mt), _ => some mt
        | none, some _ => some "fuzzy_name_dob"
        | none, none => none
      if fail DbOp.create then Except.error ()
      else
        let ver : Verification :=
          ⟨vid, inp.request_id, "PAN", checks, matchedId, conf, st,
           panBuildReasons checks matchedId.isSome⟩
        Except.ok (ver,
          HttpResp.ok vid st conf
            (matchedId.bind (fun i => matchedType.map (fun t => (i, t))))
            ver.reasons)

/-- Embeds `verifyPanHandler`: the `try/catch` wrapper.  Returns the HTTP response
together with the list of `Verification` documents persisted during the
request. -/
def verifyPanHandler (store : List AuthRecord) (inp : PanInput)
    (fail : DbOp → Bool) (vid : String) : HttpResp × List Verification :=
  match panPipeline store inp fail vid with
  | Except.ok (ver, resp) => (resp, [ver])
  | Except.error _ => (HttpResp.serverError "internal_server_error", [])

/-- Embeds `buildReasons` of `verifyGstController` (lines 127–135). -/
def gstBuildReasons (checks : Checks) (matched : Bool) : List String :=
  (if checks.format_check = 1 then ["gst_format_ok"] else []) ++
  (if checks.db_match_score = 1 then ["exact_db_match"]
   else if checks.db_match_score > 0 then ["fuzzy_db_match_score_*"] else []) ++
  (if checks.ocr_confidence ≠ 0 ∧ checks.ocr_confidence < 6 / 10 then
     ["low_ocr_confidence"] else []) ++
  (if matched then [] else ["no_db_match_found"])

/-- The validated input of `verifyGstHandler`. -/
structure GstInput where
  request_id : String
  gstin : Option String
  id_hash : Option String
  legal_name : Option String
  registration_date : Option Int
  ocr_confidence : Option Rat
  deriving Repr, DecidableEq

/-- The body of `verifyGstHandler` (lines 12–99). -/
def gstPipeline (store : List AuthRecord) (inp : GstInput)
    (fail : DbOp → Bool) (vid : String) : Except Unit (Verification × HttpResp) :=
  let ocr : Rat := inp.ocr_confidence.getD 0
  let g := inp.gstin.map normalizeId
  let format : Rat := if truthy g && gstFormatOk (g.getD "") then 1 else 0
  let exactStep : Except Unit (Option (AuthRecord × String)) :=
    if truthy inp.id_hash || truthy g then
      if fail DbOp.findExact then Except.error ()
      else Except.ok (gstExactLookup store inp.gstin inp.id_hash)
    else Except.ok none
  match exactStep with
  | Except.error e => Except.error e
  | Except.ok exact =>
    let fuzzyStep : Except Unit (Option (AuthRecord × Rat)) :=
      if exact.isNone && truthy inp.legal_name then
        if fail DbOp.findFuzzy then Except.error ()
        else Except.ok (fuzzyLookupByNameDobForEntity store "GST"
               inp.legal_name inp.registration_date)
      else Except.ok none
    match fuzzyStep with
    | Except.error e => Except.error e
    | Except.ok fuzzy =>
      let db : Rat :=
        match exact, fuzzy with
        | some _, _ => 1
        | none, some (_, sc) => sc
        | none, none => 0
      let checks : Checks := ⟨db, format, ocr⟩
      let conf := computeFinalConfidence checks
      let st := decideStatus conf
      let matchedId : Option String :=
        match exact, fuzzy with
        | some (r, _), _ => some r._id
        | none, some (r, _) => some r._id
        | none, none => none
      let matchedType : Option String :=
        match exact, fuzzy with
        | some (_, mt), _ => some mt
        | none, some _ => some "fuzzy_name_date"
        | none, none => none
      if fail DbOp.create then Except.error ()
      else
        let ver : Verification :=
          ⟨vid, inp.request_id, "GST", checks, matchedId, conf, st,
           gstBuildReasons checks matchedId.isSome⟩
        Except.ok (ver,
          HttpResp.ok vid st conf
            (matchedId.bind (fun i => matchedType.map (fun t => (i, t))))
            ver.reasons)

/-- Embeds `verifyGstHandler`: the `try/catch` wrapper. -/
def verifyGstHandler (store : List AuthRecord) (inp : GstInput)
    (fail : DbOp → Bool) (vid : String) : HttpResp × List Verification :=
  match gstPipeline store inp fail vid with
  | Except.ok (ver, resp) => (resp, [ver])
  | Except.error _ => (HttpResp.serverError "internal_server_error", [])

/-! ### Auxiliary notions used by the theorems -/

/-- The quality ordering of dispositions: `REJECTED < MANUAL_REVIEW <
VERIFIED`. -/
def statusRank : Status → Nat
  | Status.REJECTED => 0
  | Status.MANUAL_REVIEW => 1
  | Status.VERIFIED => 2

/-- Modelled from the spec: the per-field fuzzy similarity
`1 - editDistance(a, b) / max(len(a), len(b), 1)` computed on the
(normalized) values it is given, as §4.3 states it.  Kept separate from the
code-derived similarities so the two can be compared. -/
def specFieldSimilarity (a b : String) : Rat :=
  1 - (lev a b : Rat) / ((max a.data.length (max b.data.length 1) : Nat) : Rat)

/-- A stored PAN record whose `id_hash` is a caller-computable digest value,
used to exhibit the exact-match priority order. -/
def panStoreRec : AuthRecord :=
  ⟨"rec-pan-1", "PAN", "deadbeef", none, "", none, none, none⟩

/-- A stored GST record keyed by the digest of a raw GSTIN. -/
def gstStoreRec : AuthRecord :=
  ⟨"rec-gst-1", "GST", sha256Hex (normalizeId "27ABCDE1234F1Z5"), none, "", none,
   none, none⟩

/-- A stored PAN record keyed by the digest of the raw identifier `A`. -/
def panRawRec : AuthRecord :=
  ⟨"rec-pan-2", "PAN", sha256Hex (normalizeId "A"), none, "", none, none, none⟩

/-- A stored PAN record with a name and a date of birth, used to exhibit the
dob-filter behavior of the fuzzy lookup. -/
def dobRec : AuthRecord :=
  ⟨"rec-dob-1", "PAN", "h1", none, "john doe", some 5, none, none⟩

/-- A stored utility record with an address, used to exercise the utility
fuzzy path. -/
def utilRec : AuthRecord :=
  ⟨"rec-util-1", "UTILITY", "h2", none, "john doe", none, some "12 main st", none⟩

/-- A stored utility record without an address: the address-fragment regex
query can never select it, so only the unfiltered fallback reaches it. -/
def utilNoAddrRec : AuthRecord :=
  ⟨"rec-util-2", "UTILITY", "h3", none, "john doe", none, none, none⟩

/-- A stored GST record with a canonical entity name, used to exercise the
entity fuzzy lookup. -/
def gstNameRec : AuthRecord :=
  ⟨"rec-gst-2", "GST", "h4", none, "acme ltd", none, none, none⟩

end DocVer

namespace DocVer

/-! ### Helper lemmas -/

/-- The fuelled Levenshtein recursion never exceeds the longer length. -/
theorem levFuel_le_max (fuel : Nat) :
    ∀ xs ys : List Char, levFuel fuel xs ys ≤ max xs.length ys.length := by
  induction fuel with
  | zero =>
    intro xs ys
    cases xs <;> cases ys <;> simp [levFuel]
  | succ f ih =>
    intro xs ys
    cases xs with
    | nil => simp [levFuel]
    | cons x xs' =>
      cases ys with
      | nil => simp [levFuel]
      | cons y ys' =>
        have h := ih xs' ys'
        have h1 := Nat.min_le_right (levFuel f xs' (y :: ys'))
          (min (levFuel f (x :: xs') ys') (levFuel f xs' ys'))
        have h2 := Nat.min_le_right (levFuel f (x :: xs') ys') (levFuel f xs' ys')
        simp only [levFuel, List.length_cons]
        split
        · omega
        · omega

/-- Edit distance is bounded by the longer input. -/
theorem lev_le_max (a b : String) : lev a b ≤ max a.data.length b.data.length :=
  levFuel_le_max _ a.data b.data

/-- Normalized edit-distance similarities lie in `[0, 1]` whenever the
distance is bounded by the (positive) denominator. -/
theorem one_sub_div_bounds (d m : Nat) (hd : d ≤ m) (hm : 0 < m) :
    0 ≤ 1 - (d : Rat) / (m : Rat) ∧ 1 - (d : Rat) / (m : Rat) ≤ 1 := by
  have hm' : (0 : Rat) < (m : Rat) := by exact_mod_cast hm
  constructor
  · have : (d : Rat) / (m : Rat) ≤ 1 := by
      rw [div_le_one hm']
      exact_mod_cast hd
    linarith
  · have : 0 ≤ (d : Rat) / (m : Rat) := by positivity
    linarith

/-! ### The claims -/

/-- C4: in the utility handler the recency check `recent_bill_score` is 1 for
every billing date (every branch of the `days` comparison assigns 1), so bill
age never lowers the composite format score, the final confidence, or the
status, and the reason strings `bill_within_180d` and `bill_old` are
unreachable while `recent_bill_<=_90d` is always emitted. -/
theorem claim_C4_recent_bill_score_always_one (days : Int) (fc db ocr : Rat)
    (matched : Bool) :
    recentBillScore days = 1 ∧
    utilityCompositeFormat fc (recentBillScore days) = (fc + 1) / 2 ∧
    computeFinalConfidence ⟨db, utilityCompositeFormat fc (recentBillScore days), ocr⟩
      = computeFinalConfidence ⟨db, (fc + 1) / 2, ocr⟩ ∧
    decideStatus (computeFinalConfidence
        ⟨db, utilityCompositeFormat fc (recentBillScore days), ocr⟩)
      = decideStatus (computeFinalConfidence ⟨db, (fc + 1) / 2, ocr⟩) ∧
    "bill_within_180d" ∉ utilityBuildReasons ⟨fc, recentBillScore days, db, ocr⟩ matched ∧
    "bill_old" ∉ utilityBuildReasons ⟨fc, recentBillScore days, db, ocr⟩ matched ∧
    "recent_bill_<=_90d" ∈ utilityBuildReasons ⟨fc, recentBillScore days, db, ocr⟩ matched := by
  have h1 : recentBillScore days = 1 := by
    unfold recentBillScore
    split
    · rfl
    · split <;> rfl
  refine ⟨h1, by rw [h1]; rfl, by rw [h1]; rfl, by rw [h1]; rfl, ?_, ?_, ?_⟩ <;>
    · simp only [h1, utilityBuildReasons, List.mem_append]
      split_ifs <;> simp_all

/-- C5: with the default weights the final confidence is the fixed convex
combination `db * 0.5 + format * 0.25 + ocr * 0.25`; at
`db = format = ocr = 1` it is exactly 1 and the status is `VERIFIED`. -/
theorem claim_C5_default_confidence (c : Checks) :
    computeFinalConfidence c
      = c.db_match_score * (1 / 2) + c.format_check * (1 / 4) +
          c.ocr_confidence * (1 / 4) ∧
    computeFinalConfidence ⟨1, 1, 1⟩ = 1 ∧
    decideStatus (computeFinalConfidence ⟨1, 1, 1⟩) = Status.VERIFIED := by
  refine ⟨?_, by norm_num [computeFinalConfidence], ?_⟩
  · unfold computeFinalConfidence
    norm_num
  · norm_num [computeFinalConfidence, decideStatus]

/-- C6: `decideStatus` returns `VERIFIED` iff the score is at least 0.85,
`MANUAL_REVIEW` iff it lies in `[0.6, 0.85)`, `REJECTED` otherwise, and the
disposition is monotone in the score under
`REJECTED < MANUAL_REVIEW < VERIFIED`. -/
theorem claim_C6_decide_status (s s1 s2 : Rat) (h : s1 < s2) :
    (decideStatus s = Status.VERIFIED ↔ 85 / 100 ≤ s) ∧
    (decideStatus s = Status.MANUAL_REVIEW ↔ 6 / 10 ≤ s ∧ s < 85 / 100) ∧
    (decideStatus s = Status.REJECTED ↔ s < 6 / 10) ∧
    statusRank (decideStatus s1) ≤ statusRank (decideStatus s2) := by
  refine ⟨?_, ?_, ?_, ?_⟩
  · unfold decideStatus
    split_ifs with h1 h2 <;> simp [statusRank] <;> linarith
  · unfold decideStatus
    split_ifs with h1 h2 <;> simp [statusRank] <;>
      first
        | (constructor <;> linarith)
        | (intro hc; exact absurd hc (by linarith))
        | (intro hc; linarith)
  · unfold decideStatus
    split_ifs with h1 h2 <;> simp [statusRank] <;> linarith
  · unfold decideStatus
    split_ifs with h1 h2 h3 h4 <;> simp [statusRank] <;> linarith

/-- Witness for C6 at concrete scores. -/
theorem claim_C6_decide_status_witness :
    (0 : Rat) < 1 ∧
    ((decideStatus (9 / 10) = Status.VERIFIED ↔ 85 / 100 ≤ (9 / 10 : Rat)) ∧
     (decideStatus (9 / 10) = Status.MANUAL_REVIEW ↔
        6 / 10 ≤ (9 / 10 : Rat) ∧ (9 / 10 : Rat) < 85 / 100) ∧
     (decideStatus (9 / 10) = Status.REJECTED ↔ (9 / 10 : Rat) < 6 / 10) ∧
     statusRank (decideStatus 0) ≤ statusRank (decideStatus 1)) :=
  ⟨by norm_num, claim_C6_decide_status (9 / 10) 0 1 (by norm_num)⟩

/-- C2 counterexample: `normalizeId` strips only whitespace, not punctuation,
so `" ab-12 "` normalizes to `"AB-12"` and its digest differs from the digest
of `"AB12"`; the claimed equality fails at exactly the inputs it names. -/
theorem claim_C2_counterexample :
    ¬ sha256Hex (normalizeId " ab-12 ") = sha256Hex (normalizeId "AB12") := by
  decide

/-- C2 amended: digests are whitespace- and case-insensitive for inputs whose
normalized identifiers coincide — `" ab12 "` and `"AB12"` yield equal
digests — but `" ab-12 "` keeps its hyphen under normalization. -/
theorem claim_C2_amended :
    normalizeId " ab-12 " = "AB-12" ∧
    normalizeId " ab12 " = normalizeId "AB12" ∧
    sha256Hex (normalizeId " ab12 ") = sha256Hex (normalizeId "AB12") := by
  refine ⟨by decide, by decide, ?_⟩
  have h : normalizeId " ab12 " = normalizeId "AB12" := by decide
  rw [h]

/-- C1 counterexample: with a PAN store holding exactly the record keyed by
the caller-supplied digest `deadbeef`, the PAN handler with both `pan` and
`id_hash` present returns no exact match (it digests the raw identifier and
ignores the caller digest), although the caller-digest lookup would hit; the
GST handler with both present consults only the caller digest and misses,
although the raw identifier's digest lookup would hit. -/
theorem claim_C1_counterexample :
    panExactLookup [panStoreRec] (some "ABCDE1234F") (some "deadbeef") = none ∧
    findOneByHash [panStoreRec] "PAN" "deadbeef" = some panStoreRec ∧
    gstExactLookup [gstStoreRec] (some "27ABCDE1234F1Z5") (some "deadbeef") = none ∧
    findOneByHash [gstStoreRec] "GST" (sha256Hex (normalizeId "27ABCDE1234F1Z5"))
      = some gstStoreRec := by
  refine ⟨by decide, by decide, by decide, by decide⟩

/-- C1 amended: the two handlers use opposite, non-falling-through
priorities.  The PAN handler digests the raw identifier whenever it is
truthy and only consults the caller-supplied digest when the raw identifier
is absent; the GST handler consults the caller-supplied digest first and
digests the raw identifier only when no caller digest is supplied; in either
handler at most one strategy runs per request, a hit carries match type
`exact_id_hash`, and an exact hit gives `db_match_score` 1. -/
theorem claim_C1_amended (store : List AuthRecord) (pan client gstin : Option String)
    (rid : String) (nm : Option String) (dobv : Option Int) (ocr : Option Rat)
    (vid : String) (r : AuthRecord) (mt : String) :
    (truthy pan = true →
      panExactLookup store pan client
        = (findOneByHash store "PAN" (sha256Hex (normalizeId (pan.getD "")))).map
            (fun x => (x, "exact_id_hash"))) ∧
    (truthy pan = false → truthy client = true →
      panExactLookup store pan client
        = (findOneByHash store "PAN" (client.getD "")).map
            (fun x => (x, "exact_id_hash"))) ∧
    (truthy client = true →
      gstExactLookup store gstin client
        = (findOneByHash store "GST" (client.getD "")).map
            (fun x => (x, "exact_id_hash"))) ∧
    (truthy client = false → truthy (gstin.map normalizeId) = true →
      gstExactLookup store gstin client
        = (findOneByHash store "GST"
              (sha256Hex (normalizeId ((gstin.map normalizeId).getD "")))).map
            (fun x => (x, "exact_id_hash"))) ∧
    (panExactLookup store pan client = some (r, mt) → mt = "exact_id_hash") ∧
    (gstExactLookup store gstin client = some (r, mt) → mt = "exact_id_hash") ∧
    (panExactLookup store pan client = some (r, mt) →
      ∃ ver resp,
        panPipeline store ⟨rid, pan, client, nm, dobv, ocr⟩ (fun _ => false) vid
          = Except.ok (ver, resp) ∧
        ver.checks.db_match_score = 1) := by
  refine ⟨?_, ?_, ?_, ?_, ?_, ?_, ?_⟩
  · intro h
    simp [panExactLookup, h]
  · intro h1 h2
    simp [panExactLookup, h1, h2]
  · intro h
    simp [gstExactLookup, h]
  · intro h1 h2
    simp [gstExactLookup, h1, h2]
  · intro h
    unfold panExactLookup at h
    split_ifs at h <;>
      first
        | exact Option.noConfusion h
        | · obtain ⟨a, -, h2⟩ := Option.map_eq_some'.mp h
            injection h2 with h3 h4
            exact h4.symm
  · intro h
    unfold gstExactLookup at h
    split_ifs at h <;>
      first
        | exact Option.noConfusion h
        | · obtain ⟨a, -, h2⟩ := Option.map_eq_some'.mp h
            injection h2 with h3 h4
            exact h4.symm
  · intro h
    have hor : (truthy pan || truthy client) = true := by
      cases hp : truthy pan with
      | true => simp
      | false =>
        cases hc : truthy client with
        | true => simp
        | false => simp [panExactLookup, hp, hc] at h
    unfold panPipeline
    simp only [hor, if_true, Bool.false_eq_true, if_false, h,
      Option.isNone_some, Bool.false_and]
    exact ⟨_, _, rfl, rfl⟩

/-- Witness for C1's amended statement at concrete inputs. -/
theorem claim_C1_amended_witness :
    truthy (some "A") = true ∧
    panExactLookup [panRawRec] (some "A") (some "deadbeef")
      = (findOneByHash [panRawRec] "PAN"
            (sha256Hex (normalizeId ((some "A").getD "")))).map
          (fun x => (x, "exact_id_hash")) ∧
    gstExactLookup [panRawRec] (some "G") (some "deadbeef")
      = (findOneByHash [panRawRec] "GST" ((some "deadbeef").getD "")).map
          (fun x => (x, "exact_id_hash")) :=
  ⟨by decide,
   (claim_C1_amended [panRawRec] (some "A") (some "deadbeef") (some "G") "rid"
      none none none "vid" panRawRec "mt").1 (by decide),
   (claim_C1_amended [panRawRec] (some "A") (some "deadbeef") (some "G") "rid"
      none none none "vid" panRawRec "mt").2.2.1 (by decide)⟩

/-- C3 counterexample: with one stored PAN record whose name matches the
query exactly but whose date of birth differs, the dob-filtered candidate set
is empty and `fuzzyLookupByNameDob` returns no match immediately — no
unfiltered fallback — although without the dob filter the same store yields
a perfect-score match. -/
theorem claim_C3_counterexample :
    fuzzyLookupByNameDob [dobRec] "PAN" (some "John Doe") (some 7) = none ∧
    fuzzyLookupByNameDob [dobRec] "PAN" (some "John Doe") none
      = some (dobRec, 1) := by
  refine ⟨by decide, by decide⟩

/-- C3 amended: only the utility handler implements the unfiltered fallback —
when the address-fragment-filtered set is empty it rescans the document type
capped at the same bound — whereas `fuzzyLookupByNameDob` concludes no match
as soon as the dob-filtered candidate set is empty. -/
theorem claim_C3_amended (store : List AuthRecord) (dt : String)
    (name : Option String) (d : Int) (addr : String) :
    (fuzzyCandidates store dt (some d) = [] →
      fuzzyLookupByNameDob store dt name (some d) = none) ∧
    (utilityFilteredCandidates store addr = [] →
      utilityCandidates store addr
        = (store.filter (fun c => c.doc_type = "UTILITY")).take 200) := by
  constructor
  · intro h
    unfold fuzzyLookupByNameDob
    rw [h]
    simp
  · intro h
    unfold utilityCandidates
    simp [h]

/-- Witness for C3's amended statement at concrete inputs. -/
theorem claim_C3_amended_witness :
    fuzzyCandidates [dobRec] "PAN" (some 7) = [] ∧
    fuzzyLookupByNameDob [dobRec] "PAN" (some "John Doe") (some 7) = none ∧
    utilityFilteredCandidates [utilNoAddrRec] "12 main st" = [] ∧
    utilityCandidates [utilNoAddrRec] "12 main st"
      = ([utilNoAddrRec].filter (fun c => c.doc_type = "UTILITY")).take 200 :=
  ⟨by decide,
   (claim_C3_amended [dobRec] "PAN" (some "John Doe") 7 "12 main st").1 (by decide),
   by decide,
   (claim_C3_amended [utilNoAddrRec] "PAN" (some "John Doe") 7 "12 main st").2
     (by decide)⟩

/-! ### Length lemmas for the normalizer -/

/-- A successful association-list lookup returns one of the stored values. -/
theorem lookup_mem_snd {β : Type} {l : List (Char × β)} {k : Char} {v : β}
    (h : l.lookup k = some v) : v ∈ l.map Prod.snd := by
  induction l with
  | nil => simp [List.lookup] at h
  | cons p t ih =>
    obtain ⟨k', v'⟩ := p
    rw [List.lookup] at h
    cases hk : k == k' with
    | true =>
      rw [hk] at h
      injection h with h'
      subst h'
      simp
    | false =>
      rw [hk] at h
      simpa using Or.inr (ih h)

/-- After diacritic filtering, each decomposed code point contributes at most
one character. -/
theorem nfkdChar_filter_length_le (c : Char) :
    ((nfkdChar c).filter (fun x => !isDiacritic x)).length ≤ 1 := by
  unfold nfkdChar
  cases h : nfkdTable.lookup c with
  | none =>
    cases hd : isDiacritic c <;> simp [hd]
  | some v =>
    have hv := lookup_mem_snd h
    have hall : ∀ w ∈ nfkdTable.map Prod.snd,
        ((w.filter (fun x => !isDiacritic x)).length ≤ 1) := by decide
    exact hall v hv

/-- The fold-and-filter stage never lengthens the string. -/
theorem fold_filter_length_le (l : List Char) :
    ((l.flatMap nfkdChar).filter (fun c => !isDiacritic c)).length ≤ l.length := by
  induction l with
  | nil => simp
  | cons c t ih =>
    rw [List.flatMap_cons, List.filter_append, List.length_append]
    have := nfkdChar_filter_length_le c
    simp only [List.length_cons]
    omega

/-- Dropping a prefix never lengthens a list. -/
theorem dropWhile_length_le (p : Char → Bool) (l : List Char) :
    (l.dropWhile p).length ≤ l.length := by
  induction l with
  | nil => simp
  | cons c t ih =>
    rw [List.dropWhile_cons]
    split <;> simp <;> omega

/-- Trimming never lengthens a list. -/
theorem jsTrim_length_le (l : List Char) : (jsTrim l).length ≤ l.length := by
  unfold jsTrim
  rw [List.length_reverse]
  calc ((l.dropWhile isJsWhitespace).reverse.dropWhile isJsWhitespace).length
      ≤ (l.dropWhile isJsWhitespace).reverse.length :=
        dropWhile_length_le _ _
    _ = (l.dropWhile isJsWhitespace).length := List.length_reverse _
    _ ≤ l.length := dropWhile_length_le _ _

/-- Collapsing whitespace runs never lengthens a list. -/
theorem collapseWsAux_length_le (l : List Char) :
    ∀ b, (collapseWsAux b l).length ≤ l.length := by
  induction l with
  | nil => intro b; simp [collapseWsAux]
  | cons c t ih =>
    intro b
    rw [collapseWsAux]
    split
    · split
      · have := ih true
        simp only [List.length_cons]
        omega
      · have := ih true
        simp only [List.length_cons]
        omega
    · have := ih false
      simp only [List.length_cons]
      omega

/-- Normalization never lengthens a name. -/
theorem normalizeName_length_le (s : String) :
    (normalizeName s).data.length ≤ s.data.length := by
  unfold normalizeName
  split
  · simp
  · show ((collapseWs (jsTrim ((s.data.flatMap nfkdChar).filter
        (fun c => !isDiacritic c)))).map jsToLowerChar).length ≤ s.data.length
    rw [List.length_map]
    calc (collapseWs (jsTrim ((s.data.flatMap nfkdChar).filter
            (fun c => !isDiacritic c)))).length
        ≤ (jsTrim ((s.data.flatMap nfkdChar).filter
            (fun c => !isDiacritic c))).length := collapseWsAux_length_le _ _
      _ ≤ ((s.data.flatMap nfkdChar).filter (fun c => !isDiacritic c)).length :=
            jsTrim_length_le _
      _ ≤ s.data.length := fold_filter_length_le _

/-- Lowercasing preserves length. -/
theorem jsToLowerStr_length (s : String) :
    (jsToLowerStr s).data.length = s.data.length := by
  unfold jsToLowerStr
  exact List.length_map _ _

/-! ### C7 and C8 -/

/-- C7: every fuzzy matcher accepts a candidate only when its best combined
score meets the per-document-type threshold — 0.65 for `fuzzyLookupByNameDob`
and 0.62 for the entity and utility matchers — and each configured threshold
lies in the observed 0.58–0.66 range. -/
theorem claim_C7_fuzzy_threshold (store : List AuthRecord) (dt : String)
    (name : Option String) (dob : Option Int) (cn addr : String)
    (r : AuthRecord) (sc : Rat) :
    (fuzzyLookupByNameDob store dt name dob = some (r, sc) → 65 / 100 ≤ sc) ∧
    (fuzzyLookupByNameDobForEntity store dt name dob = some (r, sc) →
      62 / 100 ≤ sc) ∧
    (utilityFuzzy store cn addr = some (r, sc) → 62 / 100 ≤ sc) ∧
    ((58 : Rat) / 100 ≤ 62 / 100 ∧ (62 : Rat) / 100 ≤ 65 / 100 ∧
      (65 : Rat) / 100 ≤ 66 / 100) := by
  refine ⟨?_, ?_, ?_, by norm_num⟩
  · intro h
    unfold fuzzyLookupByNameDob at h
    split_ifs at h <;> try exact Option.noConfusion h
    split at h
    · split_ifs at h with h3
      injection h with h4
      rw [show _ = sc from congrArg Prod.snd h4] at h3
      exact h3
    · exact Option.noConfusion h
  · intro h
    unfold fuzzyLookupByNameDobForEntity at h
    split_ifs at h <;> try exact Option.noConfusion h
    split at h
    · split_ifs at h with h3
      injection h with h4
      rw [show _ = sc from congrArg Prod.snd h4] at h3
      exact h3
    · exact Option.noConfusion h
  · intro h
    unfold utilityFuzzy at h
    split at h
    · split_ifs at h with h3
      injection h with h4
      rw [show _ = sc from congrArg Prod.snd h4] at h3
      exact h3
    · exact Option.noConfusion h

/-- Witness for C7 at concrete stores in which each matcher accepts. -/
theorem claim_C7_fuzzy_threshold_witness :
    fuzzyLookupByNameDob [dobRec] "PAN" (some "John Doe") none
      = some (dobRec, 1) ∧ (65 : Rat) / 100 ≤ 1 ∧
    fuzzyLookupByNameDobForEntity [gstNameRec] "GST" (some "Acme Ltd") none
      = some (gstNameRec, 1) ∧ (62 : Rat) / 100 ≤ 1 ∧
    utilityFuzzy [utilRec] "John Doe" "12 Main St" = some (utilRec, 1) ∧
    (62 : Rat) / 100 ≤ 1 :=
  ⟨by decide,
   (claim_C7_fuzzy_threshold [dobRec] "PAN" (some "John Doe") none "" ""
      dobRec 1).1 (by decide),
   by decide,
   (claim_C7_fuzzy_threshold [gstNameRec] "GST" (some "Acme Ltd") none "" ""
      gstNameRec 1).2.1 (by decide),
   by decide,
   (claim_C7_fuzzy_threshold [utilRec] "GST" none none "John Doe" "12 Main St"
      utilRec 1).2.2.1 (by decide)⟩

/-- C8 counterexample: in the utility handler the name-similarity denominator
uses the raw stored name's length (4 for `"a  b"`), not its normalized
length (3 for `"a b"`), so at the concrete pair the computed similarity 3/4
differs from the spec formula's 2/3 on normalized values. -/
theorem claim_C8_counterexample :
    ¬ utilityNameSim (normalizeName "ab") "a  b"
        = specFieldSimilarity (normalizeName "ab") (normalizeName "a  b") ∧
    utilityNameSim (normalizeName "ab") "a  b" = 3 / 4 ∧
    specFieldSimilarity (normalizeName "ab") (normalizeName "a  b") = 2 / 3 := by
  refine ⟨by decide, by decide, by decide⟩

/-- C8 amended: each per-field similarity is the normalized edit-distance
formula over the values the code actually compares and lies in `[0, 1]`; the
weights 0.65/0.35 sum to 1; in `fuzzyLookupByNameDob` the formula holds
exactly, while the utility name field divides by the raw stored name's
length and therefore equals the spec formula only when normalization
preserves that length. -/
theorem claim_C8_amended (a b nameCanon candName address candAddr : String)
    (c : AuthRecord) :
    matchingSim a b = specFieldSimilarity a b ∧
    (0 ≤ specFieldSimilarity a b ∧ specFieldSimilarity a b ≤ 1) ∧
    (0 ≤ utilityNameSim nameCanon candName ∧
      utilityNameSim nameCanon candName ≤ 1) ∧
    (0 ≤ utilityAddrSim address candAddr ∧
      utilityAddrSim address candAddr ≤ 1) ∧
    (65 : Rat) / 100 + 35 / 100 = 1 ∧
    utilityCombined nameCanon address c
      = 65 / 100 * utilityAddrSim address (jsToLowerStr (c.address.getD "")) +
          35 / 100 * utilityNameSim nameCanon (utilityCandName c) ∧
    ((normalizeName candName).data.length = candName.data.length →
      utilityNameSim nameCanon candName
        = specFieldSimilarity nameCanon (normalizeName candName)) := by
  refine ⟨rfl, ?_, ?_, ?_, by norm_num, rfl, ?_⟩
  · have hd : lev a b ≤ max a.data.length (max b.data.length 1) := by
      have := lev_le_max a b
      omega
    have hm : 0 < max a.data.length (max b.data.length 1) := by omega
    exact one_sub_div_bounds _ _ hd hm
  · have h1 : lev nameCanon (normalizeName candName)
        ≤ max nameCanon.data.length ((normalizeName candName).data.length) :=
      lev_le_max _ _
    have h2 := normalizeName_length_le candName
    have hd : lev nameCanon (normalizeName candName)
        ≤ max nameCanon.data.length (max candName.data.length 1) := by omega
    have hm : 0 < max nameCanon.data.length (max candName.data.length 1) := by
      omega
    exact one_sub_div_bounds _ _ hd hm
  · have h1 : lev (jsToLowerStr address) candAddr
        ≤ max (jsToLowerStr address).data.length candAddr.data.length :=
      lev_le_max _ _
    have h2 := jsToLowerStr_length address
    have hd : lev (jsToLowerStr address) candAddr
        ≤ max address.data.length (max candAddr.data.length 1) := by omega
    have hm : 0 < max address.data.length (max candAddr.data.length 1) := by
      omega
    exact one_sub_div_bounds _ _ hd hm
  · intro hlen
    unfold utilityNameSim specFieldSimilarity
    rw [hlen]

/-- Witness for C8's amended statement at a length-preserving input. -/
theorem claim_C8_amended_witness :
    (normalizeName "ab").data.length = "ab".data.length ∧
    utilityNameSim "xy" "ab" = specFieldSimilarity "xy" (normalizeName "ab") :=
  ⟨by decide,
   (claim_C8_amended "" "" "xy" "ab" "" "" dobRec).2.2.2.2.2.2 (by decide)⟩

/-! ### C10 -/

/-- A successful PAN pipeline run always ends in the 200 response whose
status is the status of the persisted document. -/
theorem panPipeline_ok_resp (store : List AuthRecord) (inp : PanInput)
    (fail : DbOp → Bool) (vid : String) (ver : Verification) (resp : HttpResp)
    (hp : panPipeline store inp fail vid = Except.ok (ver, resp)) :
    resp.isOk = true ∧ resp.statusOf = some ver.status := by
  simp only [panPipeline] at hp
  repeat' split at hp
  all_goals
    first
      | exact Except.noConfusion hp
      | · injection hp with hpair
          injection hpair with hv hr
          subst hv
          subst hr
          exact ⟨rfl, rfl⟩

/-- A successful GST pipeline run always ends in the 200 response whose
status is the status of the persisted document. -/
theorem gstPipeline_ok_resp (store : List AuthRecord) (inp : GstInput)
    (fail : DbOp → Bool) (vid : String) (ver : Verification) (resp : HttpResp)
    (hp : gstPipeline store inp fail vid = Except.ok (ver, resp)) :
    resp.isOk = true ∧ resp.statusOf = some ver.status := by
  simp only [gstPipeline] at hp
  repeat' split at hp
  all_goals
    first
      | exact Except.noConfusion hp
      | · injection hp with hpair
          injection hpair with hv hr
          subst hv
          subst hr
          exact ⟨rfl, rfl⟩

/-- C10: whenever a PAN or GST request completes, exactly one `Verification`
is persisted before the response is returned, whatever the disposition (its
status is the one in the response); whenever a store operation fails, nothing
is persisted and the caller receives the structured
`{error: internal_server_error}` object, never a raw exception. -/
theorem claim_C10_persist_exactly_one (store : List AuthRecord) (inp : PanInput)
    (ginp : GstInput) (fail gfail : DbOp → Bool) (vid gvid : String) :
    ((verifyPanHandler store inp fail vid).1.isOk = true →
      (verifyPanHandler store inp fail vid).2.length = 1 ∧
      (verifyPanHandler store inp fail vid).2.map Verification.status
        = ((verifyPanHandler store inp fail vid).1.statusOf).toList) ∧
    ((verifyPanHandler store inp fail vid).1.isOk = false →
      (verifyPanHandler store inp fail vid).2 = [] ∧
      (verifyPanHandler store inp fail vid).1
        = HttpResp.serverError "internal_server_error") ∧
    ((verifyGstHandler store ginp gfail gvid).1.isOk = true →
      (verifyGstHandler store ginp gfail gvid).2.length = 1 ∧
      (verifyGstHandler store ginp gfail gvid).2.map Verification.status
        = ((verifyGstHandler store ginp gfail gvid).1.statusOf).toList) ∧
    ((verifyGstHandler store ginp gfail gvid).1.isOk = false →
      (verifyGstHandler store ginp gfail gvid).2 = [] ∧
      (verifyGstHandler store ginp gfail gvid).1
        = HttpResp.serverError "internal_server_error") := by
  have hpan : ((verifyPanHandler store inp fail vid).1.isOk = true →
      (verifyPanHandler store inp fail vid).2.length = 1 ∧
      (verifyPanHandler store inp fail vid).2.map Verification.status
        = ((verifyPanHandler store inp fail vid).1.statusOf).toList) ∧
      ((verifyPanHandler store inp fail vid).1.isOk = false →
      (verifyPanHandler store inp fail vid).2 = [] ∧
      (verifyPanHandler store inp fail vid).1
        = HttpResp.serverError "internal_server_error") := by
    cases hp : panPipeline store inp fail vid with
    | ok pr =>
      obtain ⟨ver, resp⟩ := pr
      have hshape := panPipeline_ok_resp store inp fail vid ver resp hp
      unfold verifyPanHandler
      rw [hp]
      refine ⟨fun _ => ⟨rfl, ?_⟩, fun hfalse => ?_⟩
      · simp [hshape.2]
      · rw [hshape.1] at hfalse
        exact Bool.noConfusion hfalse
    | error e =>
      unfold verifyPanHandler
      rw [hp]
      exact ⟨fun htrue => Bool.noConfusion htrue, fun _ => ⟨rfl, rfl⟩⟩
  have hgst : ((verifyGstHandler store ginp gfail gvid).1.isOk = true →
      (verifyGstHandler store ginp gfail gvid).2.length = 1 ∧
      (verifyGstHandler store ginp gfail gvid).2.map Verification.status
        = ((verifyGstHandler store ginp gfail gvid).1.statusOf).toList) ∧
      ((verifyGstHandler store ginp gfail gvid).1.isOk = false →
      (verifyGstHandler store ginp gfail gvid).2 = [] ∧
      (verifyGstHandler store ginp gfail gvid).1
        = HttpResp.serverError "internal_server_error") := by
    cases hp : gstPipeline store ginp gfail gvid with
    | ok pr =>
      obtain ⟨ver, resp⟩ := pr
      have hshape := gstPipeline_ok_resp store ginp gfail gvid ver resp hp
      unfold verifyGstHandler
      rw [hp]
      refine ⟨fun _ => ⟨rfl, ?_⟩, fun hfalse => ?_⟩
      · simp [hshape.2]
      · rw [hshape.1] at hfalse
        exact Bool.noConfusion hfalse
    | error e =>
      unfold verifyGstHandler
      rw [hp]
      exact ⟨fun htrue => Bool.noConfusion htrue, fun _ => ⟨rfl, rfl⟩⟩
  exact ⟨hpan.1, hpan.2, hgst.1, hgst.2⟩

/-- Witness for C10: a no-failure REJECTED run persists exactly one document,
and a run whose store write fails persists nothing and yields the structured
error. -/
theorem claim_C10_persist_exactly_one_witness :
    (verifyPanHandler [] ⟨"r1", none, none, none, none, none⟩
        (fun _ => false) "v1").1.isOk = true ∧
    ((verifyPanHandler [] ⟨"r1", none, none, none, none, none⟩
        (fun _ => false) "v1").2.length = 1 ∧
      (verifyPanHandler [] ⟨"r1", none, none, none, none, none⟩
        (fun _ => false) "v1").2.map Verification.status
        = ((verifyPanHandler [] ⟨"r1", none, none, none, none, none⟩
            (fun _ => false) "v1").1.statusOf).toList) ∧
    (verifyGstHandler [] ⟨"r2", none, none, none, none, none⟩
        (fun _ => true) "v2").1.isOk = false ∧
    ((verifyGstHandler [] ⟨"r2", none, none, none, none, none⟩
        (fun _ => true) "v2").2 = [] ∧
      (verifyGstHandler [] ⟨"r2", none, none, none, none, none⟩
        (fun _ => true) "v2").1
        = HttpResp.serverError "internal_server_error") :=
  ⟨by decide,
   (claim_C10_persist_exactly_one [] ⟨"r1", none, none, none, none, none⟩
      ⟨"r2", none, none, none, none, none⟩ (fun _ => false) (fun _ => true)
      "v1" "v2").1 (by decide),
   by decide,
   (claim_C10_persist_exactly_one [] ⟨"r1", none, none, none, none, none⟩
      ⟨"r2", none, none, none, none, none⟩ (fun _ => false) (fun _ => true)
      "v1" "v2").2.2.2 (by decide)⟩

/-! ### C9: idempotence of the name normalizer -/

/-- A successful association-list lookup is governed by any property holding
of every stored pair. -/
theorem lookup_some_imp {β : Type} (P : Char → β → Prop) {l : List (Char × β)}
    {k : Char} {v : β} (hall : ∀ p ∈ l, P p.1 p.2) (h : l.lookup k = some v) :
    P k v := by
  induction l with
  | nil => simp [List.lookup] at h
  | cons p t ih =>
    obtain ⟨k', v'⟩ := p
    rw [List.lookup] at h
    cases hk : k == k' with
    | true =>
      rw [hk] at h
      injection h with h'
      have hkk : k = k' := eq_of_beq hk
      rw [hkk, ← h']
      exact hall (k', v') (List.mem_cons_self _ _)
    | false =>
      rw [hk] at h
      exact ih (fun q hq => hall q (List.mem_cons_of_mem _ hq)) h

/-- Lowercasing is idempotent. -/
theorem jsToLowerChar_idem (c : Char) :
    jsToLowerChar (jsToLowerChar c) = jsToLowerChar c := by
  unfold jsToLowerChar
  cases h : lowerTable.lookup c with
  | none => simp [h]
  | some v =>
    have hnone : ∀ w ∈ lowerTable.map Prod.snd, lowerTable.lookup w = none := by
      decide
    simp [h, hnone v (lookup_mem_snd h)]

/-- Lowercasing does not change whitespace classification. -/
theorem isJsWhitespace_lower (c : Char) :
    isJsWhitespace (jsToLowerChar c) = isJsWhitespace c := by
  unfold jsToLowerChar
  cases h : lowerTable.lookup c with
  | none => simp [h]
  | some v =>
    have hk : isJsWhitespace c = false :=
      lookup_some_imp (fun k _ => isJsWhitespace k = false) (by decide) h
    have hv : ∀ w ∈ lowerTable.map Prod.snd, isJsWhitespace w = false := by decide
    simp [h, hk, hv v (lookup_mem_snd h)]

/-- Lowercasing preserves inertness. -/
theorem inertChar_lower {c : Char} (hc : inertChar c = true) :
    inertChar (jsToLowerChar c) = true := by
  unfold jsToLowerChar
  cases h : lowerTable.lookup c with
  | none => simpa [h] using hc
  | some v =>
    have hv : ∀ w ∈ lowerTable.map Prod.snd, inertChar w = true := by decide
    simpa [h] using hv v (lookup_mem_snd h)

/-- Members of a trimmed list are members of the list. -/
theorem mem_jsTrim {l : List Char} {c : Char} (h : c ∈ jsTrim l) : c ∈ l := by
  unfold jsTrim at h
  rw [List.mem_reverse] at h
  have h1 := (List.dropWhile_sublist isJsWhitespace).subset h
  rw [List.mem_reverse] at h1
  exact (List.dropWhile_sublist isJsWhitespace).subset h1

/-- Members of a collapsed list are spaces or members of the list. -/
theorem mem_collapseWsAux {c : Char} :
    ∀ (l : List Char) (b : Bool), c ∈ collapseWsAux b l → c = ' ' ∨ c ∈ l := by
  intro l
  induction l with
  | nil => intro b h; simp [collapseWsAux] at h
  | cons d t ih =>
    intro b h
    rw [collapseWsAux] at h
    split at h
    · split at h
      · rcases ih true h with h' | h'
        · exact Or.inl h'
        · exact Or.inr (List.mem_cons_of_mem _ h')
      · rcases List.mem_cons.mp h with h' | h'
        · exact Or.inl h'
        · rcases ih true h' with h'' | h''
          · exact Or.inl h''
          · exact Or.inr (List.mem_cons_of_mem _ h'')
    · rcases List.mem_cons.mp h with h' | h'
      · exact Or.inr (h' ▸ List.mem_cons_self _ _)
      · rcases ih false h' with h'' | h''
        · exact Or.inl h''
        · exact Or.inr (List.mem_cons_of_mem _ h'')

/-- Every character surviving the fold-and-filter stage is inert. -/
theorem inert_of_mem_fold {l : List Char} {c : Char}
    (h : c ∈ (l.flatMap nfkdChar).filter (fun x => !isDiacritic x)) :
    inertChar c = true := by
  rw [List.mem_filter] at h
  obtain ⟨hmem, hdia⟩ := h
  rw [List.mem_flatMap] at hmem
  obtain ⟨d, -, hd⟩ := hmem
  unfold inertChar
  rw [Bool.and_eq_true]
  refine ⟨?_, hdia⟩
  unfold nfkdChar at hd
  cases hnf : nfkdTable.lookup d with
  | none =>
    rw [hnf] at hd
    simp only [List.mem_singleton] at hd
    subst hd
    simp [hnf]
  | some v =>
    rw [hnf] at hd
    have hall : ∀ w ∈ nfkdTable.map Prod.snd, ∀ x ∈ w,
        (nfkdTable.lookup x).isNone = true := by decide
    exact hall v (lookup_mem_snd hnf) c hd

/-- The NFKD fold is the identity on inert characters. -/
theorem flatMap_nfkd_of_inert {l : List Char}
    (h : ∀ c ∈ l, inertChar c = true) : l.flatMap nfkdChar = l := by
  induction l with
  | nil => rfl
  | cons c t ih =>
    rw [List.flatMap_cons]
    have hc := h c (List.mem_cons_self _ _)
    unfold inertChar at hc
    rw [Bool.and_eq_true] at hc
    have hone : nfkdChar c = [c] := by
      unfold nfkdChar
      cases hn : nfkdTable.lookup c with
      | none => rfl
      | some v => rw [hn] at hc; simp at hc
    rw [hone, ih (fun x hx => h x (List.mem_cons_of_mem _ hx))]
    rfl

/-- The diacritic filter is the identity on inert characters. -/
theorem filter_diac_of_inert {l : List Char}
    (h : ∀ c ∈ l, inertChar c = true) :
    l.filter (fun c => !isDiacritic c) = l := by
  apply List.filter_eq_self.mpr
  intro c hc
  have hc' := h c hc
  unfold inertChar at hc'
  rw [Bool.and_eq_true] at hc'
  exact hc'.2

/-- Dropping leading whitespace is the identity when there is none. -/
theorem dropWhile_ws_eq_self {l : List Char} (h : noLeadWs l = true) :
    l.dropWhile isJsWhitespace = l := by
  cases l with
  | nil => rfl
  | cons c t =>
    unfold noLeadWs at h
    simp only [List.head?_cons, Bool.not_eq_true'] at h
    rw [List.dropWhile_cons, h]
    simp

/-- Trimming is the identity on edge-whitespace-free lists. -/
theorem jsTrim_eq_self {l : List Char} (h1 : noLeadWs l = true)
    (h2 : noTrailWs l = true) : jsTrim l = l := by
  unfold jsTrim
  rw [dropWhile_ws_eq_self h1]
  have hrev : noLeadWs l.reverse = true := by
    unfold noLeadWs
    rw [List.head?_reverse]
    unfold noTrailWs at h2
    exact h2
  rw [dropWhile_ws_eq_self hrev, List.reverse_reverse]

/-- After dropping leading whitespace nothing whitespace leads. -/
theorem head_dropWhile_ws (l : List Char) :
    noLeadWs (l.dropWhile isJsWhitespace) = true := by
  induction l with
  | nil => rfl
  | cons c t ih =>
    rw [List.dropWhile_cons]
    cases h : isJsWhitespace c with
    | true => simpa using ih
    | false => simp [noLeadWs, h]

/-- Dropping a prefix does not change the last element of a list. -/
theorem getLast?_dropWhile (p : Char → Bool) (l : List Char)
    (h : l.dropWhile p ≠ []) : (l.dropWhile p).getLast? = l.getLast? := by
  induction l with
  | nil => simp at h
  | cons c t ih =>
    rw [List.dropWhile_cons] at h ⊢
    cases hp : p c with
    | false => simp
    | true =>
      simp only [hp, if_true] at h ⊢
      cases ht : t with
      | nil => subst ht; simp at h
      | cons d u =>
        subst ht
        rw [ih h, List.getLast?_cons_cons]

/-- Trimming leaves no leading whitespace. -/
theorem jsTrim_noLead (l : List Char) : noLeadWs (jsTrim l) = true := by
  unfold jsTrim
  unfold noLeadWs
  rw [List.head?_reverse]
  by_cases hB : (l.dropWhile isJsWhitespace).reverse.dropWhile isJsWhitespace = []
  · rw [hB]; rfl
  · rw [getLast?_dropWhile _ _ hB, List.getLast?_reverse]
    have hhead := head_dropWhile_ws l
    unfold noLeadWs at hhead
    exact hhead

/-- Trimming leaves no trailing whitespace. -/
theorem jsTrim_noTrail (l : List Char) : noTrailWs (jsTrim l) = true := by
  unfold jsTrim
  unfold noTrailWs
  rw [List.getLast?_reverse]
  have hhead := head_dropWhile_ws (l.dropWhile isJsWhitespace).reverse
  unfold noLeadWs at hhead
  exact hhead

/-- Unfolding: collapsing the empty list. -/
theorem collapseWsAux_nil (b : Bool) : collapseWsAux b [] = [] := rfl

/-- Unfolding: a whitespace head inside a run is dropped. -/
theorem collapseWsAux_cons_ws_true {c : Char} (hc : isJsWhitespace c = true)
    (t : List Char) : collapseWsAux true (c :: t) = collapseWsAux true t := by
  simp [collapseWsAux, hc]

/-- Unfolding: a whitespace head starting a run emits one space. -/
theorem collapseWsAux_cons_ws_false {c : Char} (hc : isJsWhitespace c = true)
    (t : List Char) :
    collapseWsAux false (c :: t) = ' ' :: collapseWsAux true t := by
  simp [collapseWsAux, hc]

/-- Unfolding: a non-whitespace head is kept. -/
theorem collapseWsAux_cons_nws {c : Char} (hc : isJsWhitespace c = false)
    (t : List Char) (b : Bool) :
    collapseWsAux b (c :: t) = c :: collapseWsAux false t := by
  simp [collapseWsAux, hc]

/-- Collapsing preserves the absence of leading whitespace. -/
theorem collapseWsAux_noLead {l : List Char} (h : noLeadWs l = true) :
    noLeadWs (collapseWsAux false l) = true := by
  cases l with
  | nil => rfl
  | cons c t =>
    unfold noLeadWs at h
    simp only [List.head?_cons, Bool.not_eq_true'] at h
    rw [collapseWsAux, h]
    simp [noLeadWs, h]

/-- A list with a non-whitespace member never collapses to nil. -/
theorem collapseWsAux_ne_nil {l : List Char}
    (hne : ∃ c ∈ l, isJsWhitespace c = false) :
    ∀ b, collapseWsAux b l ≠ [] := by
  induction l with
  | nil => simp at hne
  | cons d t ih =>
    intro b
    obtain ⟨c, hc, hcw⟩ := hne
    rw [collapseWsAux]
    cases hw : isJsWhitespace d with
    | false => simp
    | true =>
      have hct : c ∈ t := by
        rcases List.mem_cons.mp hc with h' | h'
        · subst h'; rw [hw] at hcw; exact absurd hcw (by simp)
        · exact h'
      cases b with
      | true => simpa [hw] using ih ⟨c, hct, hcw⟩ true
      | false => simp [hw]

/-- Collapsing preserves the absence of trailing whitespace. -/
theorem collapseWsAux_noTrail {l : List Char} (h : noTrailWs l = true) :
    ∀ b, noTrailWs (collapseWsAux b l) = true := by
  induction l with
  | nil => intro b; rfl
  | cons c t ih =>
    intro b
    cases t with
    | nil =>
      unfold noTrailWs at h
      simp only [List.getLast?_singleton, Bool.not_eq_true'] at h
      rw [collapseWsAux, h]
      simp [noTrailWs, h, collapseWsAux]
    | cons d u =>
      have ht : noTrailWs (d :: u) = true := by
        unfold noTrailWs at h ⊢
        rwa [List.getLast?_cons_cons] at h
      have hlastmem : (d :: u).getLast (by simp) ∈ d :: u :=
        List.getLast_mem _
      have hlastw : isJsWhitespace ((d :: u).getLast (by simp)) = false := by
        unfold noTrailWs at ht
        rw [List.getLast?_eq_getLast _ (by simp)] at ht
        simpa using ht
      have hne : ∃ x ∈ d :: u, isJsWhitespace x = false :=
        ⟨(d :: u).getLast (by simp), hlastmem, hlastw⟩
      cases hw : isJsWhitespace c with
      | true =>
        cases b with
        | true =>
          rw [collapseWsAux_cons_ws_true hw]
          exact ih ht true
        | false =>
          rw [collapseWsAux_cons_ws_false hw]
          have hnn := collapseWsAux_ne_nil hne true
          cases hcc : collapseWsAux true (d :: u) with
          | nil => exact absurd hcc hnn
          | cons e v =>
            have h2 := ih ht true
            rw [hcc] at h2
            unfold noTrailWs at h2 ⊢
            rwa [List.getLast?_cons_cons]
      | false =>
        rw [collapseWsAux_cons_nws hw]
        have hnn := collapseWsAux_ne_nil hne false
        cases hcc : collapseWsAux false (d :: u) with
        | nil => exact absurd hcc hnn
        | cons e v =>
          have h2 := ih ht false
          rw [hcc] at h2
          unfold noTrailWs at h2 ⊢
          rwa [List.getLast?_cons_cons]

/-- Collapsing whitespace runs is idempotent. -/
theorem collapseWsAux_idem (l : List Char) :
    ∀ b, collapseWsAux b (collapseWsAux b l) = collapseWsAux b l := by
  induction l with
  | nil => intro b; rfl
  | cons c t ih =>
    intro b
    cases hw : isJsWhitespace c with
    | true =>
      cases b with
      | true =>
        rw [collapseWsAux_cons_ws_true hw]
        exact ih true
      | false =>
        rw [collapseWsAux_cons_ws_false hw,
          collapseWsAux_cons_ws_false (by decide), ih true]
    | false =>
      rw [collapseWsAux_cons_nws hw, collapseWsAux_cons_nws hw, ih false]

/-- Collapsing commutes with lowercasing. -/
theorem collapseWsAux_map_lower (l : List Char) :
    ∀ b, collapseWsAux b (l.map jsToLowerChar)
      = (collapseWsAux b l).map jsToLowerChar := by
  induction l with
  | nil => intro b; rfl
  | cons c t ih =>
    intro b
    rw [List.map_cons]
    cases hw : isJsWhitespace c with
    | true =>
      have hw' : isJsWhitespace (jsToLowerChar c) = true := by
        rw [isJsWhitespace_lower, hw]
      cases b with
      | true =>
        rw [collapseWsAux_cons_ws_true hw', collapseWsAux_cons_ws_true hw]
        exact ih true
      | false =>
        rw [collapseWsAux_cons_ws_false hw', collapseWsAux_cons_ws_false hw,
          List.map_cons, ih true]
        have hsp : jsToLowerChar ' ' = ' ' := by decide
        rw [hsp]
    | false =>
      have hw' : isJsWhitespace (jsToLowerChar c) = false := by
        rw [isJsWhitespace_lower, hw]
      rw [collapseWsAux_cons_nws hw', collapseWsAux_cons_nws hw,
        List.map_cons, ih false]

/-- Dropping whitespace commutes with lowercasing. -/
theorem dropWhile_ws_map_lower (l : List Char) :
    (l.map jsToLowerChar).dropWhile isJsWhitespace
      = (l.dropWhile isJsWhitespace).map jsToLowerChar := by
  induction l with
  | nil => rfl
  | cons c t ih =>
    rw [List.map_cons, List.dropWhile_cons, List.dropWhile_cons,
      isJsWhitespace_lower]
    cases hw : isJsWhitespace c with
    | true => simpa using ih
    | false => simp

/-- Trimming commutes with lowercasing. -/
theorem jsTrim_map_lower (l : List Char) :
    jsTrim (l.map jsToLowerChar) = (jsTrim l).map jsToLowerChar := by
  unfold jsTrim
  rw [dropWhile_ws_map_lower, ← List.map_reverse, dropWhile_ws_map_lower,
    List.map_reverse]

/-- Lowercasing a list twice is lowercasing it once. -/
theorem map_lower_idem (l : List Char) :
    (l.map jsToLowerChar).map jsToLowerChar = l.map jsToLowerChar := by
  rw [List.map_map]
  exact List.map_congr_left (fun c _ => jsToLowerChar_idem c)

/-- Every character the normalizer emits is inert. -/
theorem normCore_chars_inert {l : List Char} {c : Char} (h : c ∈ normCore l) :
    inertChar c = true := by
  unfold normCore collapseWs at h
  rw [List.mem_map] at h
  obtain ⟨d, hd, rfl⟩ := h
  apply inertChar_lower
  rcases mem_collapseWsAux _ false hd with h' | h'
  · subst h'
    decide
  · exact inert_of_mem_fold (mem_jsTrim h')

/-- The core normalization pipeline is idempotent. -/
theorem normCore_idem (l : List Char) : normCore (normCore l) = normCore l := by
  have hinert : ∀ c ∈ normCore l, inertChar c = true :=
    fun c hc => normCore_chars_inert hc
  have h1 : ((normCore l).flatMap nfkdChar).filter (fun c => !isDiacritic c)
      = normCore l := by
    rw [flatMap_nfkd_of_inert hinert, filter_diac_of_inert hinert]
  have hm_lead : noLeadWs (collapseWs (jsTrim ((l.flatMap nfkdChar).filter
      (fun c => !isDiacritic c)))) = true :=
    collapseWsAux_noLead (jsTrim_noLead _)
  have hm_trail : noTrailWs (collapseWs (jsTrim ((l.flatMap nfkdChar).filter
      (fun c => !isDiacritic c)))) = true :=
    collapseWsAux_noTrail (jsTrim_noTrail _) false
  have h2 : jsTrim (normCore l) = normCore l := by
    unfold normCore
    rw [jsTrim_map_lower, jsTrim_eq_self hm_lead hm_trail]
  have h3 : collapseWs (normCore l) = normCore l := by
    unfold normCore collapseWs
    rw [collapseWsAux_map_lower, collapseWsAux_idem]
  show (collapseWs (jsTrim (((normCore l).flatMap nfkdChar).filter
      (fun c => !isDiacritic c)))).map jsToLowerChar = normCore l
  rw [h1, h2, h3]
  unfold normCore
  exact map_lower_idem _

/-- C9: name normalization is deterministic and idempotent — for every
string `x`, `normalizeName (normalizeName x) = normalizeName x`, where
`normalizeName` Unicode-folds, strips diacritics, trims, collapses internal
whitespace, and lowercases. -/
theorem claim_C9_normalizeName_idempotent (x : String) :
    normalizeName (normalizeName x) = normalizeName x := by
  by_cases hx : x = ""
  · subst hx; rfl
  · have hinner : normalizeName x = ⟨normCore x.data⟩ := by
      rw [normalizeName, if_neg hx]
    rw [hinner]
    by_cases h0 : (⟨normCore x.data⟩ : String) = ""
    · rw [normalizeName, if_pos h0]
      exact h0.symm
    · rw [normalizeName, if_neg h0]
      exact congrArg String.mk (normCore_idem x.data)

end DocVer
